import Mathlib

/-!
# Verification of the TMR meshing layer (`TMRMesh.h`)

A shallow embedding of the data model and operations declared in
`src/TMRMesh.h` of the `tmr` repository.  The repository ships only the
header: every behavioural definition below that is not fixed by the header
itself (default arguments, the options constructor, the enums, the field
layout) is modelled from the specification's own words and marked
`Modelled from the spec:` in its doc comment.

Numeric quantities are modelled over `ℚ` (the C++ code uses `double`;
the spec's properties are stated mathematically, so exact rationals are
the faithful idealisation).  Machine integers are modelled as `ℕ`/`ℤ`;
no quantity here approaches an overflow boundary in the spec's intent.
-/

namespace TMR

/-- Physical point (`TMRPoint`): three coordinates. -/
structure TMRPoint where
  x : ℚ
  y : ℚ
  z : ℚ
deriving DecidableEq, Repr

/-- The enum `TMRMeshOptions::TriangleSmoothingType` from the header. -/
inductive TriangleSmoothingType where
  | LAPLACIAN
  | SPRING
deriving DecidableEq, Repr

/-- The `TMRMeshOptions` field layout from the header (lines 30-42). -/
structure TMRMeshOptions where
  num_smoothing_steps : ℕ
  tri_smoothing_type : TriangleSmoothingType
  frontal_quality_factor : ℚ
  write_init_domain_triangle : ℤ
  write_pre_smooth_triangle : ℤ
  write_post_smooth_triangle : ℤ
  write_dual_recombine : ℤ
  write_pre_smooth_quad : ℤ
  write_post_smooth_quad : ℤ
  write_quad_dual : ℤ
deriving DecidableEq, Repr

/-- The default constructor `TMRMeshOptions()` from the header (lines 14-28):
10 smoothing steps, Laplacian smoothing, frontal quality factor 1.5, and all
seven diagnostic write toggles cleared. -/
def TMRMeshOptions.defaults : TMRMeshOptions where
  num_smoothing_steps := 10
  tri_smoothing_type := .LAPLACIAN
  frontal_quality_factor := 3 / 2
  write_init_domain_triangle := 0
  write_pre_smooth_triangle := 0
  write_post_smooth_triangle := 0
  write_dual_recombine := 0
  write_pre_smooth_quad := 0
  write_post_smooth_quad := 0
  write_quad_dual := 0

/-! ## Edge discretizer (`TMREdgeMesh`) -/

/-- Modelled from the spec: `TMREdgeMesh::mesh` computes the point count
`n = max(2, round(curve_length/htarget))` (spec section 4.1).  The
implementation file is not in the repository; only the declaration
`void mesh(TMRMeshOptions, double htarget)` is. -/
def edgeNumPoints (curveLength htarget : ℚ) : ℕ :=
  max 2 (round (curveLength / htarget)).toNat

/-- Modelled from the spec: `TMREdgeMesh::mesh` places the points so that the
arc length between consecutive points is (approximately) equal; here the model
places point `i` at arc length `i * L / (n-1)`, the equal-spacing ideal the
spec describes. -/
def edgeArcPositions (curveLength htarget : ℚ) : List ℚ :=
  (List.range (edgeNumPoints curveLength htarget)).map
    (fun i : ℕ => (i : ℚ) * curveLength /
      ((edgeNumPoints curveLength htarget : ℚ) - 1))

/-! ## Element quality (`computeTriQuality`, `computeQuadQuality`) -/

/-- Squared Euclidean distance between two physical points. -/
def distSq (p q : TMRPoint) : ℚ :=
  (p.x - q.x) ^ 2 + (p.y - q.y) ^ 2 + (p.z - q.z) ^ 2

/-- Modelled from the spec: edge-ratio deviation of a triangle — a sum of
squared differences of the squared side lengths, zero exactly when all three
sides are equal (the ideal equilateral shape).  The implementation of
`TMRFaceMesh::computeTriQuality` is not in the repository; the spec says the
quality is "derived from angle/edge-ratio deviation". -/
def triDeviation (a b c : TMRPoint) : ℚ :=
  (distSq a b - distSq b c) ^ 2 + (distSq b c - distSq c a) ^ 2 +
    (distSq c a - distSq a b) ^ 2

/-- Modelled from the spec: `TMRFaceMesh::computeTriQuality` — a scalar in
(0,1], 1 for the ideal (equilateral) shape, monotone in the deviation. -/
def computeTriQuality (a b c : TMRPoint) : ℚ :=
  1 / (1 + triDeviation a b c)

/-- Modelled from the spec: edge/diagonal-ratio deviation of a quadrilateral
`a b c d` — squared differences of consecutive squared side lengths plus the
squared difference of the squared diagonals; zero for a perfect square. -/
def quadDeviation (a b c d : TMRPoint) : ℚ :=
  (distSq a b - distSq b c) ^ 2 + (distSq b c - distSq c d) ^ 2 +
    (distSq c d - distSq d a) ^ 2 + (distSq d a - distSq a b) ^ 2 +
    (distSq a c - distSq b d) ^ 2

/-- Modelled from the spec: `TMRFaceMesh::computeQuadQuality` — a scalar in
(0,1], 1 for the ideal (square) shape, monotone in the deviation. -/
def computeQuadQuality (a b c d : TMRPoint) : ℚ :=
  1 / (1 + quadDeviation a b c d)

/-! ## Recombination (`TMRFaceMesh::recombine`) -/

/-- Modelled from the spec: the matching step of recombination.  Scans the
dual edges (pairs of adjacent triangle indices) in input order — hence
deterministic, ties broken by lowest index — and greedily pairs two triangles
when neither has been used yet.  The spec leaves the exact matching
formulation open (exact Blossom vs. bounded heuristic) provided no triangle is
reused and tie-breaking is deterministic. -/
def dualMatch : List (ℕ × ℕ) → List ℕ → List (ℕ × ℕ)
  | [], _ => []
  | (t1, t2) :: rest, used =>
    if t1 ∈ used ∨ t2 ∈ used ∨ t1 = t2 then dualMatch rest used
    else (t1, t2) :: dualMatch rest (t1 :: t2 :: used)

/-- The triangles consumed by a list of matched pairs, in order. -/
def matchedTris : List (ℕ × ℕ) → List ℕ
  | [] => []
  | (t1, t2) :: rest => t1 :: t2 :: matchedTris rest

/-- Modelled from the spec: `TMRFaceMesh::recombine` pairs adjacent triangles
of the dual graph into quadrilaterals and leaves the unmatched triangles as
residual triangles.  Returns the list of matched pairs (each becoming one
quad) and the list of residual triangle indices. -/
def recombine (ntris : ℕ) (dual_edges : List (ℕ × ℕ)) :
    List (ℕ × ℕ) × List ℕ :=
  let m := dualMatch dual_edges []
  (m, (List.range ntris).filter (fun t => !decide (t ∈ matchedTris m)))

/-! ## Face mesh type selection (`TMRFaceMesh::mesh`, `getMeshType`) -/

/-- The enum `TMRFaceMesh::TMRFaceMeshType` from the header (line 88). -/
inductive TMRFaceMeshType where
  | NO_MESH
  | STRUCTURED
  | UNSTRUCTURED
deriving DecidableEq, Repr

/-- The default value of the `_type` argument of `TMRFaceMesh::mesh`, as
declared in the header (lines 96-97): `TMRFaceMeshType _type=STRUCTURED`. -/
def meshDefaultType : TMRFaceMeshType := .STRUCTURED

/-- Modelled from the spec: structured meshing is feasible on a 4-sided face
whose opposite bounding edge meshes have matching point counts (spec 4.2
step 2).  A face's boundary is represented by its list of bounding edge
meshes, each an ordered point chain. -/
def structuredFeasible (edgeMeshes : List (List TMRPoint)) : Bool :=
  decide (edgeMeshes.length = 4) &&
  decide ((edgeMeshes.getD 0 []).length = (edgeMeshes.getD 2 []).length) &&
  decide ((edgeMeshes.getD 1 []).length = (edgeMeshes.getD 3 []).length)

/-- Modelled from the spec: the mesh-type selection of `TMRFaceMesh::mesh`.
A requested `STRUCTURED` type is honoured when structuring is feasible and
otherwise falls back to unstructured meshing; a requested `UNSTRUCTURED` type
is used as is (spec 4.2 step 2).  The requested type defaults to
`meshDefaultType` per the header declaration. -/
def selectMeshType (edgeMeshes : List (List TMRPoint)) :
    TMRFaceMeshType → TMRFaceMeshType
  | .STRUCTURED =>
    if structuredFeasible edgeMeshes then .STRUCTURED else .UNSTRUCTURED
  | .UNSTRUCTURED => .UNSTRUCTURED
  | .NO_MESH => .NO_MESH

/-- The mesh type produced by invoking `TMRFaceMesh::mesh` without an explicit
`_type` argument. -/
def meshTypeOfDefaultCall (edgeMeshes : List (List TMRPoint)) :
    TMRFaceMeshType :=
  selectMeshType edgeMeshes meshDefaultType

/-- A concrete 4-sided face boundary: the unit square, two mesh points per
bounding edge, opposite point counts matching — structuring is feasible. -/
def squareEdgeMeshes : List (List TMRPoint) :=
  [[⟨0, 0, 0⟩, ⟨1, 0, 0⟩], [⟨1, 0, 0⟩, ⟨1, 1, 0⟩],
   [⟨1, 1, 0⟩, ⟨0, 1, 0⟩], [⟨0, 1, 0⟩, ⟨0, 0, 0⟩]]

/-! ## Face mesh assembly and smoothing -/

/-- Componentwise sum of two points. -/
def ptAdd (p q : TMRPoint) : TMRPoint :=
  ⟨p.x + q.x, p.y + q.y, p.z + q.z⟩

/-- Scale a point componentwise. -/
def ptScale (r : ℚ) (p : TMRPoint) : TMRPoint :=
  ⟨r * p.x, r * p.y, r * p.z⟩

/-- Centroid of a list of points (the argument point when the list is empty). -/
def centroid (ps : List TMRPoint) (p : TMRPoint) : TMRPoint :=
  match ps with
  | [] => p
  | _ => ptScale (1 / ps.length) (ps.foldl ptAdd ⟨0, 0, 0⟩)

/-- The boundary sides of one element (triangle or quadrilateral vertex list)
as consecutive vertex pairs in cyclic order. -/
def cycleSides (elem : List ℕ) : List (ℕ × ℕ) :=
  elem.zip (elem.rotate 1)

/-- The vertices connected to vertex `i` by an element side of the current
connectivity. -/
def neighborsOf (conn : List (List ℕ)) (i : ℕ) : List ℕ :=
  (conn.flatMap cycleSides).flatMap
    (fun e => if e.1 = i then [e.2] else if e.2 = i then [e.1] else [])

/-- Modelled from the spec: Laplacian relocation — the new position of an
interior point is the centroid of its connected neighbors under the current
connectivity (spec 4.2 step 4). -/
def laplacianTarget (conn : List (List ℕ)) (pts : List TMRPoint)
    (i : ℕ) (p : TMRPoint) : TMRPoint :=
  centroid ((neighborsOf conn i).map (fun j => pts.getD j p)) p

/-- Modelled from the spec: spring relocation — each mesh edge acts as a
spring and the point is relaxed toward the equilibrium, modelled as moving
halfway toward the neighbor centroid (spec 4.2 step 4; no formula is given). -/
def springTarget (conn : List (List ℕ)) (pts : List TMRPoint)
    (i : ℕ) (p : TMRPoint) : TMRPoint :=
  ptScale (1 / 2) (ptAdd p (laplacianTarget conn pts i p))

/-- The relocation rule chosen by `tri_smoothing_type`. -/
def smoothTarget (styp : TriangleSmoothingType) (conn : List (List ℕ))
    (pts : List TMRPoint) : ℕ → TMRPoint → TMRPoint :=
  match styp with
  | .LAPLACIAN => laplacianTarget conn pts
  | .SPRING => springTarget conn pts

/-- Apply a relocation rule to every point of index at least `nfixed`,
starting at index `i`; points of index below `nfixed` are left untouched. -/
def relocateFrom (upd : ℕ → TMRPoint → TMRPoint) (nfixed : ℕ) :
    ℕ → List TMRPoint → List TMRPoint
  | _, [] => []
  | i, p :: rest =>
    (if i < nfixed then p else upd i p) :: relocateFrom upd nfixed (i + 1) rest

/-- Modelled from the spec: one smoothing iteration relocates the interior
(non-boundary) points only; the first `nfixed` points never move. -/
def smoothStep (styp : TriangleSmoothingType) (conn : List (List ℕ))
    (nfixed : ℕ) (pts : List TMRPoint) : List TMRPoint :=
  relocateFrom (smoothTarget styp conn pts) nfixed 0 pts

/-- Modelled from the spec: run `num_smoothing_steps` smoothing iterations. -/
def smoothRun (styp : TriangleSmoothingType) (conn : List (List ℕ))
    (steps nfixed : ℕ) (pts : List TMRPoint) : List TMRPoint :=
  match steps with
  | 0 => pts
  | k + 1 => smoothRun styp conn k nfixed (smoothStep styp conn nfixed pts)

/-- Modelled from the spec: the face mesh point array holds the fixed boundary
points first — the concatenation, in order, of the bounding edge meshes'
points — followed by the interior points created during triangulation
(spec section 3, SurfaceMesh, and 4.2 step 1). -/
def buildFacePoints (edgeMeshes : List (List TMRPoint))
    (interior : List TMRPoint) : List TMRPoint :=
  edgeMeshes.flatten ++ interior

/-- The query `TMRFaceMesh::getNumFixedPoints`: the number of fixed boundary points. -/
def numFixedPts (edgeMeshes : List (List TMRPoint)) : ℕ :=
  edgeMeshes.flatten.length

/-! ## Node numbering state (`setNodeNums` on edges and faces) -/

/-- State of a `TMREdgeMesh` relevant to numbering: `npts` points and the
`vars` array, `none` while the global node numbers are still unassigned
(the C++ field starts out `NULL`). -/
structure EdgeMeshState where
  npts : ℕ
  vars : Option (List ℕ)
deriving DecidableEq, Repr

/-- Modelled from the spec: `TMREdgeMesh::setNodeNums(int *num)` assigns ids to
previously-unnumbered points, advances the shared counter by the number of
points assigned, and on an already-numbered mesh assigns nothing and leaves
the counter unchanged (spec section 4.1).  Returns the new state and counter. -/
def EdgeMeshState.setNodeNums (s : EdgeMeshState) (num : ℕ) :
    EdgeMeshState × ℕ :=
  match s.vars with
  | some _ => (s, num)
  | none => ({ s with vars := some ((List.range s.npts).map (num + ·)) },
             num + s.npts)

/-- State of a `TMRFaceMesh` relevant to numbering: the total point count, the
number of fixed (boundary) points, the ids those fixed points already received
through their owning edges, and the face's own `vars` array (`NULL` before
numbering). -/
structure FaceMeshNumState where
  num_points : ℕ
  num_fixed_pts : ℕ
  fixed_ids : List ℕ
  vars : Option (List ℕ)
deriving DecidableEq, Repr

/-- Modelled from the spec: `TMRFaceMesh::setNodeNums` follows the same
idempotent, counter-advancing contract as the edge discretizer, skipping the
points already numbered through their owning edge (spec section 4.2): the
fixed boundary points keep the ids handed down from the edges and only the
interior points receive fresh ids. -/
def FaceMeshNumState.setNodeNums (s : FaceMeshNumState) (num : ℕ) :
    FaceMeshNumState × ℕ :=
  match s.vars with
  | some _ => (s, num)
  | none =>
    let interior := s.num_points - s.num_fixed_pts
    ({ s with vars := some (s.fixed_ids ++ (List.range interior).map (num + ·)) },
     num + interior)

/-! ## The unstructured face pipeline and the orchestrator -/

/-- Modelled from the spec: the triangulation of the bounded domain,
idealised as the deterministic fan triangulation of the fixed boundary loop
(triangle `k` uses boundary vertices `0`, `k+1`, `k+2`).  The advancing-front
point-insertion strategy itself is absent from the repository (header only);
any deterministic triangulation of the boundary serves the claims settled
against this model. -/
def triangulate (npts : ℕ) : List (List ℕ) :=
  (List.range (npts - 2)).map (fun k => [0, k + 1, k + 2])

/-- Number of vertices two triangles share. -/
def sharedVerts (t1 t2 : List ℕ) : ℕ :=
  (t1.filter (fun v => decide (v ∈ t2))).length

/-- The dual graph of a triangulation: nodes are triangles, and a dual edge
joins two triangles sharing a side (two vertices); spec 4.2 step 3. -/
def dualEdgesOf (tris : List (List ℕ)) : List (ℕ × ℕ) :=
  (List.range tris.length).flatMap (fun i =>
    (List.range tris.length).filterMap (fun j =>
      if i < j ∧ 2 ≤ sharedVerts (tris.getD i []) (tris.getD j [])
      then some (i, j) else none))

/-- The quadrilateral formed by merging a matched pair of triangles: the first
triangle's vertices followed by the second's vertices not shared with it
(`TMRFaceMesh::getRecombinedQuad`, implementation absent). -/
def quadOfPair (tris : List (List ℕ)) (p : ℕ × ℕ) : List ℕ :=
  tris.getD p.1 [] ++
    (tris.getD p.2 []).filter (fun v => !decide (v ∈ tris.getD p.1 []))

/-- The data a meshed face exposes through its query surface: mesh type,
fixed-point count, point count, point array, quadrilateral connectivity and
the residual (unrecombined) triangles. -/
structure FaceMeshOutput where
  mesh_type : TMRFaceMeshType
  num_fixed_pts : ℕ
  num_points : ℕ
  pts : List TMRPoint
  quads : List (List ℕ)
  residual_tris : List ℕ
deriving DecidableEq, Repr

/-- The query `TMRFaceMesh::getMeshType` on the face output. -/
def getMeshType (d : FaceMeshOutput) : TMRFaceMeshType :=
  d.mesh_type

/-- The diagnostic visualization files requested by the seven write toggles;
each toggle, if set, writes one named file after its stage. -/
def writesRequested (o : TMRMeshOptions) : List String :=
  (if o.write_init_domain_triangle ≠ 0 then ["init_domain_triangle.vtk"] else []) ++
  (if o.write_pre_smooth_triangle ≠ 0 then ["pre_smooth_triangle.vtk"] else []) ++
  (if o.write_post_smooth_triangle ≠ 0 then ["post_smooth_triangle.vtk"] else []) ++
  (if o.write_dual_recombine ≠ 0 then ["dual_recombine.vtk"] else []) ++
  (if o.write_pre_smooth_quad ≠ 0 then ["pre_smooth_quad.vtk"] else []) ++
  (if o.write_post_smooth_quad ≠ 0 then ["post_smooth_quad.vtk"] else []) ++
  (if o.write_quad_dual ≠ 0 then ["quad_dual.vtk"] else [])

/-- Modelled from the spec: the unstructured pipeline of `TMRFaceMesh::mesh` —
assemble the fixed boundary points from the bounding edge meshes, triangulate,
recombine on the dual graph, smooth the interior for `num_smoothing_steps`
iterations with the selected smoothing type, and report mesh data plus the
requested diagnostic files.  The mesh data reads only the three algorithmic
option fields; the write toggles only select diagnostic files. -/
def faceMeshRun (options : TMRMeshOptions)
    (edgeMeshes : List (List TMRPoint)) : FaceMeshOutput × List String :=
  let pts0 := buildFacePoints edgeMeshes []
  let tris := triangulate pts0.length
  let rec_result := recombine tris.length (dualEdgesOf tris)
  let quads := rec_result.1.map (quadOfPair tris)
  let smoothed := smoothRun options.tri_smoothing_type quads
    options.num_smoothing_steps (numFixedPts edgeMeshes) pts0
  (⟨.UNSTRUCTURED, numFixedPts edgeMeshes, smoothed.length, smoothed, quads,
    rec_result.2⟩,
   writesRequested options)

/-- The given options with the seven diagnostic write toggles cleared. -/
def clearWriteFlags (o : TMRMeshOptions) : TMRMeshOptions :=
  { o with
    write_init_domain_triangle := 0
    write_pre_smooth_triangle := 0
    write_post_smooth_triangle := 0
    write_dual_recombine := 0
    write_pre_smooth_quad := 0
    write_post_smooth_quad := 0
    write_quad_dual := 0 }

/-- The error kinds of the design (spec section 7). -/
inductive MeshError where
  | TopologyError
  | GeometryError
  | UnsupportedTopologyError
  | ConfigurationError
deriving DecidableEq, Repr

/-- Modelled from the spec: a face discretization aborts synchronously with a
`GeometryError` on a degenerate boundary (fewer than three boundary points
cannot bound a parametric domain); a recombination shortfall is *not* a
failure — it degrades to residual triangles in the returned data
(spec section 7). -/
def faceMeshChecked (options : TMRMeshOptions)
    (edgeMeshes : List (List TMRPoint)) : Except MeshError FaceMeshOutput :=
  if edgeMeshes.flatten.length < 3 then .error .GeometryError
  else .ok (faceMeshRun options edgeMeshes).1

/-- Collect the per-entity results: any entity failure aborts the whole
model-level operation. -/
def collectFaces :
    List (Except MeshError FaceMeshOutput) → Option (List FaceMeshOutput)
  | [] => some []
  | .error _ :: _ => none
  | .ok d :: rest => (collectFaces rest).map (fun ds => d :: ds)

/-- The orchestrator's global mesh arrays (`TMRMesh` fields `num_nodes`, `X`,
`quads`): `none` models the unset (`NULL`) state before `initMesh` runs. -/
structure TMRMeshState where
  num_nodes : Option ℕ
  X : Option (List TMRPoint)
  quads : Option (List (List ℕ))
deriving DecidableEq, Repr

/-- Modelled from the spec: `TMRMesh::mesh` discretizes every face and
publishes the assembled global arrays only when every entity succeeded; a
propagated failure leaves the global arrays unset — no partial global mesh is
ever published (spec section 7). -/
def TMRMeshChecked (options : TMRMeshOptions)
    (faces : List (List (List TMRPoint))) : TMRMeshState :=
  match collectFaces (faces.map (faceMeshChecked options)) with
  | none => ⟨none, none, none⟩
  | some ds =>
    ⟨some (ds.map (fun d => d.num_points)).sum,
     some (ds.flatMap (fun d => d.pts)),
     some (ds.flatMap (fun d => d.quads))⟩

/-- Geometry model handed to `TMRMesh`: the curve lengths of its edges and
the bounding edge meshes of its faces. -/
structure TMRModelGeom where
  edgeLengths : List ℚ
  faceBoundaries : List (List (List TMRPoint))
deriving DecidableEq, Repr

/-- Modelled from the spec: the options-qualified entry point
`TMRMesh::mesh(TMRMeshOptions, double htarget)` — every edge and face is
discretized with the shared options and target size. -/
def TMRMeshRun (options : TMRMeshOptions) (htarget : ℚ) (geo : TMRModelGeom) :
    List (List ℚ) × List FaceMeshOutput :=
  (geo.edgeLengths.map (fun L => edgeArcPositions L htarget),
   geo.faceBoundaries.map (fun b => (faceMeshRun options b).1))

/-- Modelled from the spec: the single-argument entry point
`TMRMesh::mesh(double htarget)` uses the default-constructed options
(spec design note, section 9). -/
def TMRMeshRunSimple (htarget : ℚ) (geo : TMRModelGeom) :
    List (List ℚ) × List FaceMeshOutput :=
  TMRMeshRun TMRMeshOptions.defaults htarget geo

/-! ## Global numbering pass (`TMRMesh` orchestrator) -/

/-- Topology of one face for the numbering model: the indices of its bounding
edges (into the model's edge list — boundary points are shared by ownership,
not duplicated) and the location handles of its own interior points. -/
structure FaceTopo where
  edgeIdxs : List ℕ
  interior : List ℕ
deriving DecidableEq, Repr

/-- Topology of a model for the numbering pass: every edge is a chain of
physical location handles; faces reference edges by index. -/
structure ModelTopo where
  edges : List (List ℕ)
  faces : List FaceTopo
deriving DecidableEq, Repr

/-- Look up the id assigned to a location in the assignment map. -/
def findNum : List (ℕ × ℕ) → ℕ → Option ℕ
  | [], _ => none
  | (q, i) :: rest, p => if p = q then some i else findNum rest p

/-- Modelled from the spec: number one location — a previously-unnumbered
location receives the current counter value and the counter advances; an
already-numbered location is skipped (spec 4.4, 4.1).  The state is the
assignment map together with the shared counter. -/
def assignLoc (st : List (ℕ × ℕ) × ℕ) (p : ℕ) : List (ℕ × ℕ) × ℕ :=
  match findNum st.1 p with
  | some _ => st
  | none => ((p, st.2) :: st.1, st.2 + 1)

/-- Number a chain of locations in order. -/
def assignLocs (st : List (ℕ × ℕ) × ℕ) (ps : List ℕ) : List (ℕ × ℕ) × ℕ :=
  ps.foldl assignLoc st

/-- The locations held by one face, fixed boundary points first (walking its
bounding edges, whose points it shares with the edges), then its interior
points. -/
def faceLocs (g : ModelTopo) (f : FaceTopo) : List ℕ :=
  (f.edgeIdxs.map (fun i => g.edges.getD i [])).flatten ++ f.interior

/-- Modelled from the spec: the orchestrator's numbering pass — walk the
entities in dependency order (edges first, then faces) with one shared,
monotonically increasing counter, each `setNodeNums` call skipping locations
already numbered (spec 4.4). -/
def numberModel (g : ModelTopo) : List (ℕ × ℕ) × ℕ :=
  g.faces.foldl (fun st f => assignLocs st (faceLocs g f))
    (g.edges.foldl (fun st e => assignLocs st e) ([], 0))

/-- The node id face `f` reports for location `p` (through its node-id query):
defined when `p` is one of the face's points. -/
def faceNodeIdAt (g : ModelTopo) (f : FaceTopo) (p : ℕ) : Option ℕ :=
  if p ∈ faceLocs g f then findNum (numberModel g).1 p else none

end TMR

namespace TMR

/-! ## Theorems: C3 (edge discretization) and C6 (numbering contract) -/

/-- **C3.** For every curve length `L ≥ 0` and target size `h > 0`, the edge
discretizer produces `n = max(2, round(L/h))` points, so `n ≥ 2` always, and
the arc length between consecutive points equals `L/(n-1)` exactly (deviation
zero, hence below any positive tolerance). -/
theorem edgeMesh_count_and_spacing (L h : ℚ) (hL : 0 ≤ L) (hh : 0 < h) :
    2 ≤ edgeNumPoints L h ∧
    (edgeArcPositions L h).length = max 2 (round (L / h)).toNat ∧
    ∀ i, i + 1 < edgeNumPoints L h →
      (edgeArcPositions L h).getD (i + 1) 0 - (edgeArcPositions L h).getD i 0 =
        L / ((edgeNumPoints L h : ℚ) - 1) := by
  have hlen : (edgeArcPositions L h).length = edgeNumPoints L h := by
    rw [edgeArcPositions, List.length_map, List.length_range]
  refine ⟨le_max_left _ _, by rw [hlen, edgeNumPoints], ?_⟩
  intro i hi
  have hn2 : 2 ≤ edgeNumPoints L h := le_max_left _ _
  have hi' : i < edgeNumPoints L h := Nat.lt_of_succ_lt hi
  have hb1 : i + 1 < (edgeArcPositions L h).length := by rw [hlen]; exact hi
  have hb0 : i < (edgeArcPositions L h).length := by rw [hlen]; exact hi'
  have hgd1 : (edgeArcPositions L h).getD (i + 1) 0 =
      ((i + 1 : ℕ) : ℚ) * L / ((edgeNumPoints L h : ℚ) - 1) := by
    rw [List.getD_eq_getElem _ _ hb1]
    simp only [edgeArcPositions, List.getElem_map, List.getElem_range]
  have hgd0 : (edgeArcPositions L h).getD i 0 =
      ((i : ℕ) : ℚ) * L / ((edgeNumPoints L h : ℚ) - 1) := by
    rw [List.getD_eq_getElem _ _ hb0]
    simp only [edgeArcPositions, List.getElem_map, List.getElem_range]
  rw [hgd1, hgd0]
  have hne : ((edgeNumPoints L h : ℚ) - 1) ≠ 0 := by
    have : (2 : ℚ) ≤ (edgeNumPoints L h : ℚ) := by exact_mod_cast hn2
    intro hzero
    nlinarith
  field_simp
  ring

/-- Witness for C3 at `L = 10`, `h = 3`: three points, spacing 5 each. -/
theorem edgeMesh_count_and_spacing_witness :
    (0 ≤ (10 : ℚ) ∧ 0 < (3 : ℚ)) ∧
    (2 ≤ edgeNumPoints 10 3 ∧
     (edgeArcPositions 10 3).length = max 2 (round ((10 : ℚ) / 3)).toNat ∧
     ∀ i, i + 1 < edgeNumPoints 10 3 →
       (edgeArcPositions 10 3).getD (i + 1) 0 - (edgeArcPositions 10 3).getD i 0 =
         10 / ((edgeNumPoints 10 3 : ℚ) - 1)) :=
  ⟨⟨by norm_num, by norm_num⟩,
   edgeMesh_count_and_spacing 10 3 (by norm_num) (by norm_num)⟩

/-- **C6.** `setNodeNums` is idempotent and counter-advancing for edge and face
meshes: a first call on an unnumbered mesh assigns ids to all
previously-unnumbered points and advances the counter by the number of points
assigned (`npts` for an edge, `num_points - num_fixed_pts` for a face, whose
fixed points were numbered through their owning edges); a second call assigns
nothing and leaves the counter unchanged. -/
theorem setNodeNums_idempotent_counter
    (e : EdgeMeshState) (f : FaceMeshNumState) (ne nf : ℕ)
    (he : e.vars = none) (hf : f.vars = none) :
    ((e.setNodeNums ne).2 = ne + e.npts ∧
     (e.setNodeNums ne).1.vars =
       some ((List.range e.npts).map (ne + ·)) ∧
     (e.setNodeNums ne).1.setNodeNums (e.setNodeNums ne).2 =
       ((e.setNodeNums ne).1, (e.setNodeNums ne).2)) ∧
    ((f.setNodeNums nf).2 = nf + (f.num_points - f.num_fixed_pts) ∧
     (f.setNodeNums nf).1.vars =
       some (f.fixed_ids ++
         (List.range (f.num_points - f.num_fixed_pts)).map (nf + ·)) ∧
     (f.setNodeNums nf).1.setNodeNums (f.setNodeNums nf).2 =
       ((f.setNodeNums nf).1, (f.setNodeNums nf).2)) := by
  constructor
  · simp [EdgeMeshState.setNodeNums, he]
  · simp [FaceMeshNumState.setNodeNums, hf]

/-- Witness for C6: an edge with 3 points and a face with 5 points of which 4
are fixed, starting from counters 7 and 10. -/
theorem setNodeNums_idempotent_counter_witness :
    ((⟨3, none⟩ : EdgeMeshState).vars = none ∧
     (⟨5, 4, [0, 1, 2, 3], none⟩ : FaceMeshNumState).vars = none) ∧
    (((⟨3, none⟩ : EdgeMeshState).setNodeNums 7).2 = 7 + 3 ∧
     ((⟨3, none⟩ : EdgeMeshState).setNodeNums 7).1.vars =
       some ((List.range 3).map (7 + ·)) ∧
     (((⟨3, none⟩ : EdgeMeshState).setNodeNums 7).1.setNodeNums
         ((⟨3, none⟩ : EdgeMeshState).setNodeNums 7).2 =
       (((⟨3, none⟩ : EdgeMeshState).setNodeNums 7).1,
        ((⟨3, none⟩ : EdgeMeshState).setNodeNums 7).2))) ∧
    (((⟨5, 4, [0, 1, 2, 3], none⟩ : FaceMeshNumState).setNodeNums 10).2 =
       10 + (5 - 4) ∧
     ((⟨5, 4, [0, 1, 2, 3], none⟩ : FaceMeshNumState).setNodeNums 10).1.vars =
       some ([0, 1, 2, 3] ++ (List.range (5 - 4)).map (10 + ·)) ∧
     (((⟨5, 4, [0, 1, 2, 3], none⟩ : FaceMeshNumState).setNodeNums 10).1.setNodeNums
         ((⟨5, 4, [0, 1, 2, 3], none⟩ : FaceMeshNumState).setNodeNums 10).2 =
       (((⟨5, 4, [0, 1, 2, 3], none⟩ : FaceMeshNumState).setNodeNums 10).1,
        ((⟨5, 4, [0, 1, 2, 3], none⟩ : FaceMeshNumState).setNodeNums 10).2))) := by
  refine ⟨⟨rfl, rfl⟩, ?_⟩
  have h := setNodeNums_idempotent_counter (⟨3, none⟩ : EdgeMeshState)
    (⟨5, 4, [0, 1, 2, 3], none⟩ : FaceMeshNumState) 7 10 rfl rfl
  exact ⟨h.1, h.2⟩

/-! ## Theorems: C7 (element quality) -/

lemma distSq_comm (p q : TMRPoint) : distSq p q = distSq q p := by
  unfold distSq
  ring

lemma triDeviation_nonneg (a b c : TMRPoint) : 0 ≤ triDeviation a b c := by
  unfold triDeviation
  positivity

lemma quadDeviation_nonneg (a b c d : TMRPoint) : 0 ≤ quadDeviation a b c d := by
  unfold quadDeviation
  positivity

lemma quality_unit_interval (dev : ℚ) (hdev : 0 ≤ dev) :
    0 < 1 / (1 + dev) ∧ 1 / (1 + dev) ≤ 1 := by
  constructor
  · positivity
  · rw [div_le_one (by linarith)]
    linarith

/-- **C7.** The quality metrics return a value in (0,1] for every triangle and
quadrilateral, return exactly 1 for a perfect equilateral triangle and a
perfect (unit) square, and are invariant under cyclic rotation of the
element's vertices. -/
theorem quality_range_ideal_rotation :
    (∀ a b c : TMRPoint,
      0 < computeTriQuality a b c ∧ computeTriQuality a b c ≤ 1) ∧
    (∀ a b c d : TMRPoint,
      0 < computeQuadQuality a b c d ∧ computeQuadQuality a b c d ≤ 1) ∧
    computeTriQuality ⟨1, 0, 0⟩ ⟨0, 1, 0⟩ ⟨0, 0, 1⟩ = 1 ∧
    computeQuadQuality ⟨0, 0, 0⟩ ⟨1, 0, 0⟩ ⟨1, 1, 0⟩ ⟨0, 1, 0⟩ = 1 ∧
    (∀ a b c : TMRPoint,
      computeTriQuality b c a = computeTriQuality a b c) ∧
    (∀ a b c d : TMRPoint,
      computeQuadQuality b c d a = computeQuadQuality a b c d) := by
  refine ⟨fun a b c => quality_unit_interval _ (triDeviation_nonneg a b c),
          fun a b c d => quality_unit_interval _ (quadDeviation_nonneg a b c d),
          ?_, ?_, fun a b c => ?_, fun a b c d => ?_⟩
  · unfold computeTriQuality triDeviation distSq
    norm_num
  · unfold computeQuadQuality quadDeviation distSq
    norm_num
  · unfold computeTriQuality triDeviation
    ring_nf
  · unfold computeQuadQuality quadDeviation
    rw [distSq_comm c a]
    ring_nf

/-! ## Theorems: C2 (recombination conservation) -/

lemma matchedTris_length (m : List (ℕ × ℕ)) :
    (matchedTris m).length = 2 * m.length := by
  induction m with
  | nil => rfl
  | cons hd tl ih =>
    obtain ⟨t1, t2⟩ := hd
    simp [matchedTris, ih]
    ring

lemma mem_matchedTris {x : ℕ} {m : List (ℕ × ℕ)} :
    x ∈ matchedTris m ↔ ∃ p ∈ m, x = p.1 ∨ x = p.2 := by
  induction m with
  | nil => simp [matchedTris]
  | cons hd tl ih =>
    obtain ⟨t1, t2⟩ := hd
    simp [matchedTris, ih]
    aesop

lemma dualMatch_subset : ∀ (de : List (ℕ × ℕ)) (used : List ℕ),
    ∀ p ∈ dualMatch de used, p ∈ de := by
  intro de
  induction de with
  | nil => intro used p hp; simp [dualMatch] at hp
  | cons hd tl ih =>
    intro used p hp
    obtain ⟨t1, t2⟩ := hd
    by_cases hcond : t1 ∈ used ∨ t2 ∈ used ∨ t1 = t2
    · rw [dualMatch, if_pos hcond] at hp
      exact List.mem_cons_of_mem _ (ih used p hp)
    · rw [dualMatch, if_neg hcond] at hp
      rcases List.mem_cons.mp hp with h | h
      · exact h ▸ List.mem_cons_self _ _
      · exact List.mem_cons_of_mem _ (ih _ p h)

lemma dualMatch_fresh_nodup : ∀ (de : List (ℕ × ℕ)) (used : List ℕ),
    (∀ x ∈ matchedTris (dualMatch de used), x ∉ used) ∧
    (matchedTris (dualMatch de used)).Nodup := by
  intro de
  induction de with
  | nil => intro used; simp [dualMatch, matchedTris]
  | cons hd tl ih =>
    intro used
    obtain ⟨t1, t2⟩ := hd
    by_cases hcond : t1 ∈ used ∨ t2 ∈ used ∨ t1 = t2
    · rw [dualMatch, if_pos hcond]
      exact ih used
    · rw [dualMatch, if_neg hcond]
      push_neg at hcond
      obtain ⟨h1, h2, h12⟩ := hcond
      obtain ⟨ihf, ihn⟩ := ih (t1 :: t2 :: used)
      have ht1 : t1 ∉ matchedTris (dualMatch tl (t1 :: t2 :: used)) := by
        intro hmem
        exact ihf t1 hmem (List.mem_cons_self _ _)
      have ht2 : t2 ∉ matchedTris (dualMatch tl (t1 :: t2 :: used)) := by
        intro hmem
        exact ihf t2 hmem (List.mem_cons_of_mem _ (List.mem_cons_self _ _))
      constructor
      · intro x hx hxu
        rw [matchedTris] at hx
        rcases List.mem_cons.mp hx with rfl | hx'
        · exact h1 hxu
        rcases List.mem_cons.mp hx' with rfl | hx''
        · exact h2 hxu
        · exact ihf x hx''
            (List.mem_cons_of_mem _ (List.mem_cons_of_mem _ hxu))
      · rw [matchedTris]
        refine List.nodup_cons.mpr ⟨?_, List.nodup_cons.mpr ⟨ht2, ihn⟩⟩
        intro hmem
        rcases List.mem_cons.mp hmem with h | h
        · exact h12 h
        · exact ht1 h

lemma filter_not_mem_count (n : ℕ) (m : List ℕ) (hnd : m.Nodup)
    (hlt : ∀ x ∈ m, x < n) :
    ((List.range n).filter (fun t => !decide (t ∈ m))).length + m.length = n := by
  have hsplit := List.length_eq_length_filter_add
    (l := List.range n) (fun t => decide (t ∈ m))
  have hperm : List.Perm ((List.range n).filter (fun t => decide (t ∈ m))) m := by
    rw [List.perm_ext_iff_of_nodup ((List.nodup_range n).filter _) hnd]
    intro a
    simp only [List.mem_filter, List.mem_range, decide_eq_true_eq]
    exact ⟨fun h => h.2, fun h => ⟨hlt a h, h⟩⟩
  have hlenf : ((List.range n).filter (fun t => decide (t ∈ m))).length
      = m.length := hperm.length_eq
  have hnot : ((List.range n).filter (fun t => !decide (t ∈ m))).length
      = ((List.range n).filter
          (fun t => !(fun s => decide (s ∈ m)) t)).length := rfl
  rw [hnot, ← hlenf, Nat.add_comm]
  rw [List.length_range] at hsplit
  exact hsplit.symm

/-- **C2.** For every triangulation handed to recombination (dual edges whose
endpoints are valid triangle indices), no triangle is used in more than one
quadrilateral, and `2 × (quad count) + (residual triangle count) =
(original triangle count)`. -/
theorem recombine_conservation (ntris : ℕ) (dual_edges : List (ℕ × ℕ))
    (hvalid : ∀ p ∈ dual_edges, p.1 < ntris ∧ p.2 < ntris) :
    (matchedTris (recombine ntris dual_edges).1).Nodup ∧
    2 * (recombine ntris dual_edges).1.length +
      (recombine ntris dual_edges).2.length = ntris := by
  have hsub := dualMatch_subset dual_edges []
  have hfn := dualMatch_fresh_nodup dual_edges []
  have hlt : ∀ x ∈ matchedTris (dualMatch dual_edges []), x < ntris := by
    intro x hx
    obtain ⟨p, hp, hxp⟩ := mem_matchedTris.mp hx
    have := hvalid p (hsub p hp)
    rcases hxp with rfl | rfl
    · exact this.1
    · exact this.2
  refine ⟨hfn.2, ?_⟩
  have hcount := filter_not_mem_count ntris
    (matchedTris (dualMatch dual_edges [])) hfn.2 hlt
  rw [matchedTris_length] at hcount
  simp only [recombine]
  omega

/-- Witness for C2: four triangles in a strip with dual edges
`(0,1), (1,2), (2,3)`; greedy matching pairs `(0,1)` and `(2,3)`, leaving no
residual triangle, and `2·2 + 0 = 4`. -/
theorem recombine_conservation_witness :
    (∀ p ∈ [((0 : ℕ), (1 : ℕ)), (1, 2), (2, 3)], p.1 < 4 ∧ p.2 < 4) ∧
    ((matchedTris (recombine 4 [(0, 1), (1, 2), (2, 3)]).1).Nodup ∧
     2 * (recombine 4 [(0, 1), (1, 2), (2, 3)]).1.length +
       (recombine 4 [(0, 1), (1, 2), (2, 3)]).2.length = 4) :=
  ⟨by decide, recombine_conservation 4 [(0, 1), (1, 2), (2, 3)] (by decide)⟩

/-! ## Theorems: C4 (fixed boundary points never move) -/

lemma relocateFrom_take (upd : ℕ → TMRPoint → TMRPoint) (nfixed : ℕ) :
    ∀ (ps : List TMRPoint) (i j : ℕ), i + j ≤ nfixed →
      (relocateFrom upd nfixed i ps).take j = ps.take j := by
  intro ps
  induction ps with
  | nil => intro i j _; rfl
  | cons p rest ih =>
    intro i j hij
    cases j with
    | zero => rfl
    | succ j' =>
      have hi : i < nfixed := by omega
      rw [relocateFrom, if_pos hi, List.take_succ_cons, List.take_succ_cons]
      rw [ih (i + 1) j' (by omega)]

lemma smoothStep_take (styp : TriangleSmoothingType) (conn : List (List ℕ))
    (nfixed : ℕ) (pts : List TMRPoint) :
    (smoothStep styp conn nfixed pts).take nfixed = pts.take nfixed :=
  relocateFrom_take _ nfixed pts 0 nfixed (by omega)

lemma smoothRun_take (styp : TriangleSmoothingType) (conn : List (List ℕ)) :
    ∀ (steps nfixed : ℕ) (pts : List TMRPoint),
      (smoothRun styp conn steps nfixed pts).take nfixed = pts.take nfixed := by
  intro steps
  induction steps with
  | zero => intro nfixed pts; rfl
  | succ k ih =>
    intro nfixed pts
    rw [smoothRun, ih nfixed, smoothStep_take]

/-- **C4.** The first `num_fixed_pts` points of a face mesh are exactly, in
position and order, the concatenation of the bounding edge meshes' points, and
smoothing — any number of steps, either smoothing type, any current
connectivity — never changes any of these boundary points. -/
theorem face_boundary_points_fixed (edgeMeshes : List (List TMRPoint))
    (interior : List TMRPoint) (styp : TriangleSmoothingType)
    (conn : List (List ℕ)) (steps : ℕ) :
    (buildFacePoints edgeMeshes interior).take (numFixedPts edgeMeshes) =
      edgeMeshes.flatten ∧
    (smoothRun styp conn steps (numFixedPts edgeMeshes)
        (buildFacePoints edgeMeshes interior)).take (numFixedPts edgeMeshes) =
      (buildFacePoints edgeMeshes interior).take (numFixedPts edgeMeshes) := by
  constructor
  · rw [buildFacePoints, numFixedPts, List.take_left]
  · rw [smoothRun_take]

/-! ## Theorems: C1 (default mesh type) -/

/-- **C1, counterexample.** On a concrete feasible 4-sided face (the unit
square with two points per bounding edge), invoking `TMRFaceMesh::mesh`
without an explicit mesh type does not discretize the face in unstructured
mode: the header's default argument is `_type=STRUCTURED`, and the face is
meshed structured. -/
theorem default_call_not_unstructured :
    meshTypeOfDefaultCall squareEdgeMeshes ≠ TMRFaceMeshType.UNSTRUCTURED ∧
    meshTypeOfDefaultCall squareEdgeMeshes = TMRFaceMeshType.STRUCTURED ∧
    meshDefaultType = TMRFaceMeshType.STRUCTURED := by
  refine ⟨?_, rfl, rfl⟩
  intro h
  exact absurd h (by decide)

/-- **C1, amended.** When `TMRFaceMesh::mesh` is invoked without an explicit
mesh type, the *requested* type is `STRUCTURED` (the header's default
argument); the face is meshed structured exactly when structuring is feasible
(4-sided, matching opposite-edge point counts) and falls back to unstructured
mode otherwise — unstructured is the fallback, not the default request. -/
theorem default_call_structured_with_fallback
    (edgeMeshes : List (List TMRPoint)) :
    meshDefaultType = TMRFaceMeshType.STRUCTURED ∧
    meshTypeOfDefaultCall edgeMeshes =
      (if structuredFeasible edgeMeshes then TMRFaceMeshType.STRUCTURED
       else TMRFaceMeshType.UNSTRUCTURED) :=
  ⟨rfl, rfl⟩

/-! ## Theorems: C5 (global node-id consistency) -/

lemma findNum_mem {m : List (ℕ × ℕ)} {p n : ℕ} (h : findNum m p = some n) :
    (p, n) ∈ m := by
  induction m with
  | nil => simp [findNum] at h
  | cons e rest ih =>
    obtain ⟨q, i⟩ := e
    rw [findNum] at h
    by_cases hpq : p = q
    · rw [if_pos hpq] at h
      subst hpq
      obtain rfl : i = n := by injection h
      exact List.mem_cons_self _ _
    · rw [if_neg hpq] at h
      exact List.mem_cons_of_mem _ (ih h)

lemma findNum_none_not_key {m : List (ℕ × ℕ)} {p : ℕ}
    (h : findNum m p = none) : ∀ n, (p, n) ∉ m := by
  induction m with
  | nil => simp
  | cons e rest ih =>
    obtain ⟨q, i⟩ := e
    rw [findNum] at h
    by_cases hpq : p = q
    · rw [if_pos hpq] at h
      exact absurd h (by simp)
    · rw [if_neg hpq] at h
      intro n hn
      rcases List.mem_cons.mp hn with heq | hmem
      · exact hpq (by injection heq)
      · exact ih h n hmem

/-- Invariant of the numbering state: ids are below the counter, every
location has at most one entry, and no id is given to two locations. -/
def GoodNumState (st : List (ℕ × ℕ) × ℕ) : Prop :=
  (∀ e ∈ st.1, e.2 < st.2) ∧
  (st.1.map Prod.fst).Nodup ∧ (st.1.map Prod.snd).Nodup

lemma goodNumState_assignLoc {st : List (ℕ × ℕ) × ℕ} (hg : GoodNumState st)
    (p : ℕ) : GoodNumState (assignLoc st p) := by
  obtain ⟨m, c⟩ := st
  obtain ⟨hlt, hkeys, hvals⟩ := hg
  rw [assignLoc]
  cases hfind : findNum m p with
  | some n => exact ⟨hlt, hkeys, hvals⟩
  | none =>
    refine ⟨?_, ?_, ?_⟩
    · intro e he
      rcases List.mem_cons.mp he with rfl | hmem
      · exact Nat.lt_succ_self c
      · exact Nat.lt_succ_of_lt (hlt e hmem)
    · rw [List.map_cons, List.nodup_cons]
      refine ⟨?_, hkeys⟩
      intro hpk
      obtain ⟨e, hem, hep⟩ := List.mem_map.mp hpk
      exact findNum_none_not_key hfind e.2 (by
        have : e = (p, e.2) := by
          obtain ⟨e1, e2⟩ := e
          simp at hep
          simp [hep]
        exact this ▸ hem)
    · rw [List.map_cons, List.nodup_cons]
      refine ⟨?_, hvals⟩
      intro hcv
      obtain ⟨e, hem, hec⟩ := List.mem_map.mp hcv
      have hec' : e.2 = c := hec
      exact absurd (hlt e hem) (by rw [hec']; exact lt_irrefl c)

lemma findNum_assignLoc_persist {st : List (ℕ × ℕ) × ℕ} {p n : ℕ} (q : ℕ)
    (h : findNum st.1 p = some n) : findNum (assignLoc st q).1 p = some n := by
  obtain ⟨m, c⟩ := st
  rw [assignLoc]
  cases hfind : findNum m q with
  | some k => exact h
  | none =>
    by_cases hpq : p = q
    · rw [hpq] at h
      rw [hfind] at h
      exact absurd h (by simp)
    · rw [findNum, if_neg hpq]
      exact h

lemma findNum_assignLoc_covered (st : List (ℕ × ℕ) × ℕ) (p : ℕ) :
    ∃ n, findNum (assignLoc st p).1 p = some n := by
  obtain ⟨m, c⟩ := st
  rw [assignLoc]
  cases hfind : findNum m p with
  | some k => exact ⟨k, hfind⟩
  | none => exact ⟨c, by rw [findNum, if_pos rfl]⟩

lemma assignLocs_goodNumState {st : List (ℕ × ℕ) × ℕ} (hg : GoodNumState st)
    (ps : List ℕ) : GoodNumState (assignLocs st ps) := by
  induction ps generalizing st with
  | nil => exact hg
  | cons p rest ih => exact ih (goodNumState_assignLoc hg p)

lemma assignLocs_persist {st : List (ℕ × ℕ) × ℕ} {p n : ℕ} (ps : List ℕ)
    (h : findNum st.1 p = some n) :
    findNum (assignLocs st ps).1 p = some n := by
  induction ps generalizing st with
  | nil => exact h
  | cons q rest ih => exact ih (findNum_assignLoc_persist q h)

lemma assignLocs_covered (st : List (ℕ × ℕ) × ℕ) (ps : List ℕ) :
    ∀ p ∈ ps, ∃ n, findNum (assignLocs st ps).1 p = some n := by
  induction ps generalizing st with
  | nil => intro p hp; simp at hp
  | cons q rest ih =>
    intro p hp
    rcases List.mem_cons.mp hp with rfl | hmem
    · obtain ⟨n, hn⟩ := findNum_assignLoc_covered st p
      exact ⟨n, assignLocs_persist rest hn⟩
    · exact ih (assignLoc st q) p hmem

lemma foldl_assign_goodNumState {α : Type} (f : α → List ℕ) (l : List α)
    {st : List (ℕ × ℕ) × ℕ} (hg : GoodNumState st) :
    GoodNumState (l.foldl (fun s a => assignLocs s (f a)) st) := by
  induction l generalizing st with
  | nil => exact hg
  | cons a rest ih => exact ih (assignLocs_goodNumState hg (f a))

lemma foldl_assign_persist {α : Type} (f : α → List ℕ) (l : List α)
    {st : List (ℕ × ℕ) × ℕ} {p n : ℕ} (h : findNum st.1 p = some n) :
    findNum ((l.foldl (fun s a => assignLocs s (f a)) st).1) p = some n := by
  induction l generalizing st with
  | nil => exact h
  | cons a rest ih => exact ih (assignLocs_persist (f a) h)

lemma foldl_assign_covered {α : Type} (f : α → List ℕ) (l : List α) :
    ∀ (st : List (ℕ × ℕ) × ℕ) (a : α), a ∈ l → ∀ p ∈ f a,
      ∃ n, findNum ((l.foldl (fun s a => assignLocs s (f a)) st).1) p = some n := by
  induction l with
  | nil => intro st a ha; simp at ha
  | cons b rest ih =>
    intro st a ha p hp
    rw [List.foldl_cons]
    rcases List.mem_cons.mp ha with heq | hmem
    · subst heq
      obtain ⟨n, hn⟩ := assignLocs_covered st (f a) p hp
      exact ⟨n, foldl_assign_persist f rest hn⟩
    · exact ih (assignLocs st (f b)) a hmem p hp

lemma numberModel_goodNumState (g : ModelTopo) :
    GoodNumState (numberModel g) := by
  rw [numberModel]
  exact foldl_assign_goodNumState (faceLocs g) g.faces
    (foldl_assign_goodNumState (fun e => e) g.edges
      ⟨by simp, by simp, by simp⟩)

lemma numberModel_covers_edge (g : ModelTopo) {i p : ℕ}
    (hi : i < g.edges.length) (hp : p ∈ g.edges.getD i []) :
    ∃ n, findNum (numberModel g).1 p = some n := by
  rw [numberModel]
  have hedge : g.edges.getD i [] ∈ g.edges := by
    rw [List.getD_eq_getElem _ _ hi]
    exact List.getElem_mem _
  obtain ⟨n, hn⟩ := foldl_assign_covered (fun e => e) g.edges ([], 0)
    (g.edges.getD i []) hedge p hp
  exact ⟨n, foldl_assign_persist (faceLocs g) g.faces hn⟩

lemma numberModel_inj (g : ModelTopo) {q r nq nr : ℕ}
    (hq : findNum (numberModel g).1 q = some nq)
    (hr : findNum (numberModel g).1 r = some nr) (heq : nq = nr) : q = r := by
  have hgood := numberModel_goodNumState g
  have hmq := findNum_mem hq
  have hmr := findNum_mem hr
  have hpair : (q, nq) = (r, nr) :=
    List.inj_on_of_nodup_map hgood.2.2 hmq hmr (by simp [heq])
  exact congrArg Prod.fst hpair

lemma mem_faceLocs_of_edge {g : ModelTopo} {f : FaceTopo} {i p : ℕ}
    (hif : i ∈ f.edgeIdxs) (hp : p ∈ g.edges.getD i []) :
    p ∈ faceLocs g f := by
  rw [faceLocs]
  refine List.mem_append_left _ (List.mem_flatten.mpr ⟨g.edges.getD i [], ?_, hp⟩)
  exact List.mem_map.mpr ⟨i, hif, rfl⟩

/-- **C5.** After the numbering pass, for faces `A` and `B` of the model
sharing bounding edge `E` (edge index `i`), every point of `E` receives the
same GlobalNodeId whether retrieved through `A`'s node-id query or `B`'s — and
the id is actually assigned.  Globally, no two distinct locations share an id
and no location carries two entries in the assignment. -/
theorem shared_edge_ids_consistent (g : ModelTopo) (A B : FaceTopo) (i p : ℕ)
    (hAg : A ∈ g.faces) (hBg : B ∈ g.faces)
    (hA : i ∈ A.edgeIdxs) (hB : i ∈ B.edgeIdxs)
    (hi : i < g.edges.length) (hp : p ∈ g.edges.getD i []) :
    faceNodeIdAt g A p = faceNodeIdAt g B p ∧
    (∃ n, faceNodeIdAt g A p = some n) ∧
    (∀ q r nq nr, findNum (numberModel g).1 q = some nq →
      findNum (numberModel g).1 r = some nr → nq = nr → q = r) ∧
    ((numberModel g).1.map Prod.fst).Nodup := by
  have hpA : p ∈ faceLocs g A := mem_faceLocs_of_edge hA hp
  have hpB : p ∈ faceLocs g B := mem_faceLocs_of_edge hB hp
  obtain ⟨n, hn⟩ := numberModel_covers_edge g hi hp
  refine ⟨?_, ⟨n, ?_⟩, fun q r nq nr hq hr heq => numberModel_inj g hq hr heq,
    (numberModel_goodNumState g).2.1⟩
  · rw [faceNodeIdAt, faceNodeIdAt, if_pos hpA, if_pos hpB]
  · rw [faceNodeIdAt, if_pos hpA]
    exact hn

/-- Witness for C5: two triangular faces sharing edge 0 (`locations 0,1`);
face `A` is bounded by edges 0 and 1 with interior location 10, face `B` by
edges 0 and 2 with interior location 11. -/
theorem shared_edge_ids_consistent_witness :
    ((⟨[0, 1], [10]⟩ : FaceTopo) ∈
        (⟨[[0, 1], [1, 2, 0], [1, 3, 0]], [⟨[0, 1], [10]⟩, ⟨[0, 2], [11]⟩]⟩ :
          ModelTopo).faces ∧
     (⟨[0, 2], [11]⟩ : FaceTopo) ∈
        (⟨[[0, 1], [1, 2, 0], [1, 3, 0]], [⟨[0, 1], [10]⟩, ⟨[0, 2], [11]⟩]⟩ :
          ModelTopo).faces ∧
     (0 : ℕ) ∈ ([0, 1] : List ℕ) ∧ (0 : ℕ) ∈ ([0, 2] : List ℕ) ∧
     (0 : ℕ) < ([[0, 1], [1, 2, 0], [1, 3, 0]] : List (List ℕ)).length ∧
     (1 : ℕ) ∈ ([[0, 1], [1, 2, 0], [1, 3, 0]] : List (List ℕ)).getD 0 []) ∧
    (faceNodeIdAt ⟨[[0, 1], [1, 2, 0], [1, 3, 0]],
        [⟨[0, 1], [10]⟩, ⟨[0, 2], [11]⟩]⟩ ⟨[0, 1], [10]⟩ 1 =
      faceNodeIdAt ⟨[[0, 1], [1, 2, 0], [1, 3, 0]],
        [⟨[0, 1], [10]⟩, ⟨[0, 2], [11]⟩]⟩ ⟨[0, 2], [11]⟩ 1) ∧
    (∃ n, faceNodeIdAt ⟨[[0, 1], [1, 2, 0], [1, 3, 0]],
        [⟨[0, 1], [10]⟩, ⟨[0, 2], [11]⟩]⟩ ⟨[0, 1], [10]⟩ 1 = some n) := by
  have h := shared_edge_ids_consistent
    ⟨[[0, 1], [1, 2, 0], [1, 3, 0]], [⟨[0, 1], [10]⟩, ⟨[0, 2], [11]⟩]⟩
    ⟨[0, 1], [10]⟩ ⟨[0, 2], [11]⟩ 0 1
    (by decide) (by decide) (by decide) (by decide) (by decide) (by decide)
  exact ⟨⟨by decide, by decide, by decide, by decide, by decide, by decide⟩,
    h.1, h.2.1⟩

/-! ## Theorems: C9 (diagnostic write toggles are pure observers) -/

/-- **C9.** The seven diagnostic write toggles have zero effect on the mesh
data: meshing with any combination of `write_*` flags produces a point array,
connectivity, fixed-point count, mesh type and residual list identical to
meshing with all flags clear, and the node numbering derived from that data is
identical too; with all flags clear no diagnostic file is written. -/
theorem write_toggles_no_mesh_effect (options : TMRMeshOptions)
    (edgeMeshes : List (List TMRPoint)) (counter : ℕ) (fixed_ids : List ℕ) :
    (faceMeshRun options edgeMeshes).1 =
      (faceMeshRun (clearWriteFlags options) edgeMeshes).1 ∧
    (faceMeshRun (clearWriteFlags options) edgeMeshes).2 = [] ∧
    FaceMeshNumState.setNodeNums
      ⟨(faceMeshRun options edgeMeshes).1.num_points,
       (faceMeshRun options edgeMeshes).1.num_fixed_pts, fixed_ids, none⟩
      counter =
    FaceMeshNumState.setNodeNums
      ⟨(faceMeshRun (clearWriteFlags options) edgeMeshes).1.num_points,
       (faceMeshRun (clearWriteFlags options) edgeMeshes).1.num_fixed_pts,
       fixed_ids, none⟩ counter := by
  refine ⟨rfl, ?_, rfl⟩
  simp [faceMeshRun, writesRequested, clearWriteFlags]

/-! ## Theorems: C10 (single-argument entry point) -/

/-- **C10.** `TMRMesh::mesh(htarget)` is equivalent to
`TMRMesh::mesh(TMRMeshOptions(), htarget)`, and the default-constructed
options are 10 smoothing steps, Laplacian triangle smoothing, frontal quality
factor 1.5 (= 3/2), with all seven diagnostic write toggles off. -/
theorem single_arg_mesh_uses_default_options (htarget : ℚ)
    (geo : TMRModelGeom) :
    TMRMeshRunSimple htarget geo =
      TMRMeshRun TMRMeshOptions.defaults htarget geo ∧
    TMRMeshOptions.defaults.num_smoothing_steps = 10 ∧
    TMRMeshOptions.defaults.tri_smoothing_type =
      TriangleSmoothingType.LAPLACIAN ∧
    TMRMeshOptions.defaults.frontal_quality_factor = 3 / 2 ∧
    TMRMeshOptions.defaults.write_init_domain_triangle = 0 ∧
    TMRMeshOptions.defaults.write_pre_smooth_triangle = 0 ∧
    TMRMeshOptions.defaults.write_post_smooth_triangle = 0 ∧
    TMRMeshOptions.defaults.write_dual_recombine = 0 ∧
    TMRMeshOptions.defaults.write_pre_smooth_quad = 0 ∧
    TMRMeshOptions.defaults.write_post_smooth_quad = 0 ∧
    TMRMeshOptions.defaults.write_quad_dual = 0 :=
  ⟨rfl, rfl, rfl, rfl, rfl, rfl, rfl, rfl, rfl, rfl, rfl⟩

/-! ## Theorems: C8 (failure propagation, recombination non-fatal) -/

lemma collectFaces_eq_none_iff (rs : List (Except MeshError FaceMeshOutput)) :
    collectFaces rs = none ↔ ∃ r ∈ rs, ∃ e, r = Except.error e := by
  induction rs with
  | nil => simp [collectFaces]
  | cons r rest ih =>
    cases r with
    | error e => simp [collectFaces]
    | ok d =>
      rw [collectFaces]
      constructor
      · intro h
        have hnone : collectFaces rest = none := by
          cases hc : collectFaces rest with
          | none => rfl
          | some ds => rw [hc] at h; simp at h
        obtain ⟨r, hr, e, he⟩ := ih.mp hnone
        exact ⟨r, List.mem_cons_of_mem _ hr, e, he⟩
      · intro hex
        obtain ⟨r, hr, e, he⟩ := hex
        rcases List.mem_cons.mp hr with heq | hmem
        · rw [heq] at he
          exact absurd he (by simp)
        · rw [ih.mpr ⟨r, hmem, e, he⟩]
          rfl

lemma TMRMeshChecked_unset_iff (options : TMRMeshOptions)
    (faces : List (List (List TMRPoint))) :
    TMRMeshChecked options faces = ⟨none, none, none⟩ ↔
      collectFaces (faces.map (faceMeshChecked options)) = none := by
  rw [TMRMeshChecked]
  cases hc : collectFaces (faces.map (faceMeshChecked options)) with
  | none => simp
  | some ds => simp

/-- **C8.** A geometric failure during one face's discretization aborts that
face's `mesh()` and propagates: the orchestrator's global point and element
arrays are left unset exactly when some entity failed — no partial global mesh
is published.  Recombination shortfalls, by contrast, never fail: a face with
a valid boundary always returns data, observable through the mesh-type
query. -/
theorem failure_aborts_success_publishes (options : TMRMeshOptions)
    (faces : List (List (List TMRPoint))) :
    (TMRMeshChecked options faces = ⟨none, none, none⟩ ↔
      ∃ g ∈ faces, ∃ e, faceMeshChecked options g = Except.error e) ∧
    (∀ g : List (List TMRPoint), 3 ≤ g.flatten.length →
      faceMeshChecked options g = Except.ok (faceMeshRun options g).1 ∧
      getMeshType (faceMeshRun options g).1 = TMRFaceMeshType.UNSTRUCTURED) := by
  constructor
  · rw [TMRMeshChecked_unset_iff, collectFaces_eq_none_iff]
    constructor
    · intro hex
      obtain ⟨r, hr, e, he⟩ := hex
      obtain ⟨g, hg, rfl⟩ := List.mem_map.mp hr
      exact ⟨g, hg, e, he⟩
    · intro hex
      obtain ⟨g, hg, e, he⟩ := hex
      exact ⟨faceMeshChecked options g, List.mem_map_of_mem _ hg, e, he⟩
  · intro g hg
    rw [faceMeshChecked, if_neg (by omega)]
    exact ⟨rfl, rfl⟩

/-- Witness for C8: the unit-square boundary (8 boundary points) meshes
without failure and reports an unstructured mesh. -/
theorem failure_aborts_success_publishes_witness :
    3 ≤ squareEdgeMeshes.flatten.length ∧
    (faceMeshChecked TMRMeshOptions.defaults squareEdgeMeshes =
       Except.ok (faceMeshRun TMRMeshOptions.defaults squareEdgeMeshes).1 ∧
     getMeshType (faceMeshRun TMRMeshOptions.defaults squareEdgeMeshes).1 =
       TMRFaceMeshType.UNSTRUCTURED) :=
  ⟨by decide,
   (failure_aborts_success_publishes TMRMeshOptions.defaults []).2
     squareEdgeMeshes (by decide)⟩

end TMR
